import Mathlib

/-!
Verification of `comp.py`: a scenario-comparison script that derives scenario
names from result spreadsheet filenames, moves the scenario named `base` to the
last position, merges per-scenario `Costs` and `Commodity sums` sheets into two
output tables (costs in billions, energy sums in GWh), splits cost columns by
the sign of their per-column sum, and filters out commodities with
non-positive totals.  File discovery (`get_most_recent_entry`,
`glob_result_files`) is modelled over explicit directory listings.

Numeric spreadsheet cells are modelled as rationals; a missing / blank cell is
`Option.none` (Python `NaN`).  Python's stable `list.sort` / `sorted` is
modelled by `List.insertionSort`, which is stable and structurally recursive.
-/

namespace Comp

/-! ### Character-list string machinery

Python string comparison is lexicographic on code points; Python
`str.replace(old, new)` replaces every non-overlapping occurrence from the
left.  Both are modelled structurally over `List Char` so that all definitions
evaluate by kernel reduction. -/

/-- Lexicographic (code-point) order on character lists, Python string `<=`. -/
def lexLe : List Char → List Char → Bool
  | [], _ => true
  | _ :: _, [] => false
  | a :: as, b :: bs => if a = b then lexLe as bs else decide (a.toNat < b.toNat)

/-- String order used by Python `sorted` on strings. -/
def strLe (a b : String) : Bool := lexLe a.toList b.toList

/-- Python `str.replace`, fuelled: replaces each non-overlapping occurrence of
`p` by `r` scanning left to right.  One fuel unit is spent per step and each
step consumes at least one character, so `fuel = s.length` is always enough.
(The script only replaces non-empty literals, so the empty-pattern case is
irrelevant; like Lean's `String.replace`, an empty pattern leaves `s`
unchanged.) -/
def replaceFuel (p r : List Char) : Nat → List Char → List Char
  | _, [] => []
  | 0, s => s
  | fuel + 1, c :: s =>
    if !p.isEmpty && p.isPrefixOf (c :: s) then
      r ++ replaceFuel p r fuel ((c :: s).drop p.length)
    else
      c :: replaceFuel p r fuel s

/-- Python `s.replace(pat, rep)` for strings. -/
def pyReplace (s pat rep : String) : String :=
  ⟨replaceFuel pat.toList rep.toList s.toList.length s.toList⟩

/-- Python `os.path.basename`: everything after the last slash. -/
def basename (s : String) : String :=
  ⟨(s.toList.reverse.takeWhile (fun c => c ≠ '/')).reverse⟩

/-- Occurrence test: the pattern `p` occurs in `s` at position `i`. -/
def occursAt (p s : List Char) (i : Nat) : Bool := p.isPrefixOf (s.drop i)

/-! ### Scenario names (comp.py lines 58-62)

`scenario_names = [os.path.basename(rf).replace('_', ' ')
                   .replace('.xlsx', '').replace('scenario ', '')
                   for rf in result_files]` -/

/-- Scenario name derived from a result filename, exactly as the source does
it: basename, then replace every `_` by a space, then remove every occurrence
of `.xlsx`, then remove every occurrence of `scenario `. -/
def scenario_name (rf : String) : String :=
  pyReplace (pyReplace (pyReplace (basename rf) "_" " ") ".xlsx" "") "scenario " ""

/-- Remove `suf` from the end of `s` when it is a suffix, else leave `s`. -/
def dropSuffixIf (s suf : String) : String :=
  if suf.toList.isSuffixOf s.toList then
    ⟨s.toList.take (s.toList.length - suf.toList.length)⟩
  else s

/-- Remove `pre` from the start of `s` when it starts with it, else leave `s`. -/
def dropStartIf (s pre : String) : String :=
  if pre.toList.isPrefixOf s.toList then ⟨s.toList.drop pre.toList.length⟩ else s

/-- The claim's reading of name derivation: drop the directory part, replace
every underscore with a space, drop the `.xlsx` extension (only as a suffix),
drop a literal `scenario ` prefix (only at the start).  Stated from the spec's
words for comparison with `scenario_name`, which removes every occurrence. -/
def spec_scenario_name (rf : String) : String :=
  dropStartIf (dropSuffixIf (pyReplace (basename rf) "_" " ") ".xlsx") "scenario "

/-! ### Data model of the two sheets of one scenario file

`Costs` is parsed with `index_col=[0]`: a map cost type, one numeric value
column.  `Commodity sums` after index repair is keyed by the two-level index
(property, commodity) with one numeric column per location. -/

/-- One result spreadsheet: its filename, its `Costs` sheet (cost type to
value, in row order) and its repaired `Commodity sums` sheet ((property,
commodity) to the list of per-location values, in row order). -/
structure Scenario where
  file : String
  cost : List (String × ℚ)
  esum : List ((String × String) × List ℚ)
deriving DecidableEq

instance : Inhabited Scenario := ⟨⟨"", [], []⟩⟩

/-- Names of all scenarios in file order (comp.py line 58). -/
def scenario_names (scs : List Scenario) : List String :=
  scs.map (fun sc => scenario_name sc.file)

/-- Python `list.index`: index of the first occurrence, `none` when absent
(Python raises `ValueError`, which line 69 catches). -/
def list_index (a : String) : List String → Option Nat
  | [] => none
  | b :: l => if b = a then some 0 else (list_index a l).map (fun i => i + 1)

/-- Lines 64-70: `pop` the scenario whose derived name is `base` and `append`
it, leaving the list unchanged when no name equals `base`.  The same index is
popped from `result_files` and `scenario_names`; both parallel lists are
modelled as the single list of `Scenario` records. -/
def reorder_base (scs : List Scenario) : List Scenario :=
  match list_index "base" (scenario_names scs) with
  | some i => scs.eraseIdx i ++ scs[i]?.toList
  | none => scs

/-- Final contents of the caller's `result_files` argument after
`compare_scenarios` ran lines 64-70; the in-place `pop`/`append` mutation is
modelled by explicit state passing. -/
def result_files_after (result_files : List String) : List String :=
  match list_index "base" (result_files.map scenario_name) with
  | some i => result_files.eraseIdx i ++ result_files[i]?.toList
  | none => result_files

/-! ### Costs pipeline (comp.py lines 91, 100-105)

`costs = pd.concat(costs, axis=1, keys=scenario_names)` places one value
column per scenario; concatenation aligns rows on the union of the cost-type
indexes, a cost type missing from a sheet becoming `NaN` (`none`).
`sort_index().transpose()` then yields rows = scenarios (in reordered list
order) and columns = the sorted union of cost types; `/ 1e9` divides each
cell.  `spent` / `earnt` keep the columns whose column sum (`NaN` skipped) is
strictly positive / strictly negative. -/

/-- Value of one cost type in one `Costs` sheet (pandas index lookup: first
matching row), `none` when the sheet has no such row. -/
def lookupCost (sheet : List (String × ℚ)) (ct : String) : Option ℚ :=
  (sheet.find? (fun r => decide (r.1 = ct))).map (fun r => r.2)

/-- Cell of the final costs table for one scenario and cost type: the source
cell divided by `1e9`, `NaN` (`none`) when the source sheet lacks the row. -/
def cost_cell (sc : Scenario) (ct : String) : Option ℚ :=
  (lookupCost sc.cost ct).map (fun v => v / 1000000000)

/-- Row labels of one `Costs` sheet. -/
def sheet_cost_types (sheet : List (String × ℚ)) : List String :=
  sheet.map (fun r => r.1)

/-- Sorted union of the cost types of all sheets (concat row alignment
followed by `sort_index()`). -/
def cost_types (scs : List Scenario) : List String :=
  List.insertionSort (fun a b => strLe a b = true)
    ((scs.map (fun sc => sheet_cost_types sc.cost)).flatten.dedup)

/-- The output `Costs` table (sheet `Costs` of the report): one row per
scenario in reordered order, one column per sorted cost type. -/
def costs_out (scs : List Scenario) : List (String × List (Option ℚ)) :=
  (reorder_base scs).map
    (fun sc =>
      (scenario_name sc.file,
        (cost_types (reorder_base scs)).map (fun ct => cost_cell sc ct)))

/-- Column sum of the final costs table for one cost type (`costs.sum()`,
line 104): `NaN` cells are skipped. -/
def col_sum (scs : List Scenario) (ct : String) : ℚ :=
  (((reorder_base scs).map (fun sc => cost_cell sc ct)).filterMap id).sum

/-- Column labels kept by `spent = costs.loc[:, costs.sum() > 0]`. -/
def spent (scs : List Scenario) : List String :=
  (cost_types (reorder_base scs)).filter (fun ct => decide (0 < col_sum scs ct))

/-- Column labels kept by `earnt = costs.loc[:, costs.sum() < 0]`. -/
def earnt (scs : List Scenario) : List String :=
  (cost_types (reorder_base scs)).filter (fun ct => decide (col_sum scs ct < 0))

/-! ### Energy-sums pipeline (comp.py lines 92, 111-115)

`esums.loc['Created'].sum(axis=1, level=0)` keeps the rows whose outer key is
`Created` and sums each scenario's location columns; a row missing from one
scenario's sheet contributes an all-`NaN` group, which old pandas sums to `0`.
`used_commodities` keeps the commodities whose row sum over all scenarios is
strictly positive; the frame is then sorted, transposed and divided by
`1e3`. -/

/-- Sum of all location cells of the rows of `sheet` keyed by `key`
(`0` when no such row exists: an all-`NaN` group sums to `0`). -/
def row_sum (sheet : List ((String × String) × List ℚ)) (key : String × String) : ℚ :=
  ((sheet.filter (fun r => decide (r.1 = key))).map (fun r => r.2.sum)).sum

/-- One scenario's `Created` total of a commodity over all its locations. -/
def created_sum (sc : Scenario) (c : String) : ℚ :=
  row_sum sc.esum ("Created", c)

/-- Commodities of the `Created` rows of one repaired sheet. -/
def sheet_commodities (sheet : List ((String × String) × List ℚ)) : List String :=
  (sheet.filter (fun r => decide (r.1.1 = "Created"))).map (fun r => r.1.2)

/-- Sorted union of the `Created` commodities of all sheets. -/
def commodities (scs : List Scenario) : List String :=
  List.insertionSort (fun a b => strLe a b = true)
    ((scs.map (fun sc => sheet_commodities sc.esum)).flatten.dedup)

/-- Total of one commodity over all scenarios and locations
(`esums.sum(axis=1)`, line 113). -/
def com_total (scs : List Scenario) (c : String) : ℚ :=
  ((reorder_base scs).map (fun sc => created_sum sc c)).sum

/-- Commodities kept by `esums[used_commodities]` (line 113-114). -/
def used_commodities (scs : List Scenario) : List String :=
  (commodities (reorder_base scs)).filter (fun c => decide (0 < com_total scs c))

/-- The output `Energy sums` table: one row per scenario in reordered order,
one column per kept commodity, each cell the `Created` total divided by
`1e3`. -/
def esums_out (scs : List Scenario) : List (String × List ℚ) :=
  (reorder_base scs).map
    (fun sc =>
      (scenario_name sc.file,
        (used_commodities scs).map (fun c => created_sum sc c / 1000)))

/-! ### Index repair of the `Commodity sums` sheet (comp.py lines 82-85)

After `reset_index()` each raw row is (level_0, level_1, location values),
any cell possibly blank.  `esum.fillna(method='ffill', inplace=True)` forward
fills every column of the frame: each blank cell takes the last non-blank
value above it in the same column. -/

/-- One raw row of the reset sheet: the two key cells and the numeric cells,
each possibly blank. -/
abbrev RawRow := Option String × Option String × List (Option ℚ)

/-- Forward-fill step for a single cell: a blank cell takes the value carried
from above, a non-blank cell keeps its value. -/
def ffo {α : Type} (prev cur : Option α) : Option α :=
  match cur with
  | some v => some v
  | none => prev

/-- Forward-fill one raw row from the already-filled row above it; numeric
cells are filled position by position. -/
def ffill_row (prev cur : RawRow) : RawRow :=
  (ffo prev.1 cur.1, ffo prev.2.1 cur.2.1, List.zipWith ffo prev.2.2 cur.2.2)

/-- Forward-fill the rows below an already-filled row `prev`. -/
def ffill_from (prev : RawRow) : List RawRow → List RawRow
  | [] => []
  | r :: rs => ffill_row prev r :: ffill_from (ffill_row prev r) rs

/-- `esum.fillna(method='ffill')` on the whole frame (line 84): the first row
has nothing above it and is unchanged. -/
def ffill : List RawRow → List RawRow
  | [] => []
  | r :: rs => r :: ffill_from r rs

/-- Forward-fill step restricted to the two key columns, leaving numeric
cells untouched: the repair step as the claim words it. -/
def ffill_keys_row (prev cur : RawRow) : RawRow :=
  (ffo prev.1 cur.1, ffo prev.2.1 cur.2.1, cur.2.2)

/-- Rows below `prev`, key-columns-only variant. -/
def ffill_keys_from (prev : RawRow) : List RawRow → List RawRow
  | [] => []
  | r :: rs => ffill_keys_row prev r :: ffill_keys_from (ffill_keys_row prev r) rs

/-- Forward fill restricted to columns 1-2, from the claim's words. -/
def ffill_keys : List RawRow → List RawRow
  | [] => []
  | r :: rs => r :: ffill_keys_from r rs

/-- Column-wise carry of the last non-blank value, continuing from `prev`. -/
def carry_from {α : Type} (prev : Option α) : List (Option α) → List (Option α)
  | [] => []
  | c :: cs => ffo prev c :: carry_from (ffo prev c) cs

/-- Column-wise carry of the last non-blank value above each blank cell. -/
def carry {α : Type} (col : List (Option α)) : List (Option α) :=
  carry_from none col

/-! ### File discovery (comp.py lines 13-38)

A directory is modelled as the listing `glob.glob` sees: for
`get_most_recent_entry` a list of (entry, modification time), for
`glob_result_files` a list of filenames. -/

/-- `get_most_recent_entry`: sort the entries by modification time with
Python's stable sort and take the last (`entries[-1]`); the empty directory
makes `entries[-1]` raise `IndexError`, modelled by `none`. -/
def get_most_recent_entry (entries : List (String × ℚ)) : Option (String × ℚ) :=
  (List.insertionSort (fun a b => a.2 ≤ b.2) entries).getLast?

/-- A filename matches the glob pattern `scenario_*.xlsx`: `*` matches any
(possibly empty) character sequence of a single path component. -/
def matches_scenario_glob (name : String) : Bool :=
  "scenario_".toList.isPrefixOf name.toList && ".xlsx".toList.isSuffixOf name.toList

/-- `glob_result_files`: the matching filenames of the directory,
lexicographically sorted (`sorted(glob.glob(...))`). -/
def glob_result_files (files : List String) : List String :=
  List.insertionSort (fun a b => strLe a b = true) (files.filter matches_scenario_glob)

/-! ### Helper lemmas: the lexicographic order -/

lemma char_toNat_inj {a b : Char} (h : a.toNat = b.toNat) : a = b := by
  apply Char.eq_of_val_eq
  unfold Char.toNat at h
  exact UInt32.toNat.inj h

lemma lexLe_total : ∀ as bs : List Char, lexLe as bs = true ∨ lexLe bs as = true
  | [], _ => Or.inl rfl
  | _ :: _, [] => Or.inr rfl
  | a :: as, b :: bs => by
    by_cases hab : a = b
    · subst hab
      simpa [lexLe] using lexLe_total as bs
    · have hba : ¬b = a := fun e => hab e.symm
      rcases Nat.lt_trichotomy a.toNat b.toNat with h | h | h
      · exact Or.inl (by simp [lexLe, hab, h])
      · exact absurd (char_toNat_inj h) hab
      · exact Or.inr (by simp [lexLe, hba, h])

lemma lexLe_trans :
    ∀ as bs cs : List Char,
      lexLe as bs = true → lexLe bs cs = true → lexLe as cs = true
  | [], _, _, _, _ => rfl
  | a :: as, [], _, h1, _ => by simp [lexLe] at h1
  | a :: as, b :: bs, [], _, h2 => by simp [lexLe] at h2
  | a :: as, b :: bs, c :: cs, h1, h2 => by
    by_cases hab : a = b <;> by_cases hbc : b = c
    · subst hab; subst hbc
      simp only [lexLe, if_pos rfl] at h1 h2 ⊢
      exact lexLe_trans as bs cs h1 h2
    · subst hab
      simpa [lexLe, hbc] using h2
    · subst hbc
      simpa [lexLe, hab] using h1
    · simp only [lexLe, if_neg hab, decide_eq_true_eq] at h1
      simp only [lexLe, if_neg hbc, decide_eq_true_eq] at h2
      have hac : a.toNat < c.toNat := lt_trans h1 h2
      have hne : a ≠ c := fun e => by
        subst e
        exact absurd (lt_trans h1 h2) (lt_irrefl _)
      simp [lexLe, hne, hac]

instance : IsTotal String (fun a b => strLe a b = true) :=
  ⟨fun a b => lexLe_total a.toList b.toList⟩

instance : IsTrans String (fun a b => strLe a b = true) :=
  ⟨fun a b c => lexLe_trans a.toList b.toList c.toList⟩

instance : IsTotal (String × ℚ) (fun a b => a.2 ≤ b.2) :=
  ⟨fun a b => le_total a.2 b.2⟩

instance : IsTrans (String × ℚ) (fun a b => a.2 ≤ b.2) :=
  ⟨fun _ _ _ => le_trans⟩

/-! ### Helper lemmas: `list_index` (Python `list.index`) -/

lemma list_index_eq_none {a : String} :
    ∀ {l : List String}, list_index a l = none ↔ a ∉ l
  | [] => by simp [list_index]
  | b :: l => by
    by_cases hba : b = a
    · subst hba
      simp [list_index]
    · have hab : ¬a = b := fun e => hba e.symm
      simp [list_index, hba, list_index_eq_none, hab]

lemma list_index_eq_some {a : String} :
    ∀ {l : List String} {i : Nat},
      list_index a l = some i → i < l.length ∧ l[i]? = some a
  | [], i, h => by simp [list_index] at h
  | b :: l, i, h => by
    by_cases hba : b = a
    · subst hba
      simp [list_index] at h
      subst h
      simp
    · simp only [list_index, if_neg hba, Option.map_eq_some'] at h
      obtain ⟨j, hj, rfl⟩ := h
      obtain ⟨hlt, hget⟩ := list_index_eq_some hj
      exact ⟨by simpa using hlt, by simpa using hget⟩

/-! ### Helper lemmas: the base reorder -/

lemma map_eraseIdx {α β : Type} (f : α → β) :
    ∀ (l : List α) (i : Nat), (l.eraseIdx i).map f = (l.map f).eraseIdx i
  | [], _ => by simp
  | _ :: _, 0 => by simp
  | a :: l, i + 1 => by simp [List.eraseIdx, map_eraseIdx f l i]

lemma eraseIdx_append_getElem_perm {α : Type} {l : List α} {i : Nat}
    (h : i < l.length) : (l.eraseIdx i ++ l[i]?.toList).Perm l := by
  rw [List.getElem?_eq_getElem h, List.eraseIdx_eq_take_drop_succ,
    Option.toList_some, List.append_assoc]
  have hp : (List.take i l ++ (List.drop (i + 1) l ++ [l[i]])).Perm
      (List.take i l ++ (l[i] :: List.drop (i + 1) l)) :=
    List.Perm.append_left _ (List.perm_append_singleton _ _)
  refine hp.trans ?_
  rw [List.getElem_cons_drop l i h, List.take_append_drop]

lemma reorder_base_perm (scs : List Scenario) : (reorder_base scs).Perm scs := by
  unfold reorder_base
  cases h : list_index "base" (scenario_names scs) with
  | none => exact List.Perm.refl _
  | some i =>
    have hi : i < scs.length := by
      have := (list_index_eq_some h).1
      simpa [scenario_names] using this
    exact eraseIdx_append_getElem_perm hi

lemma scenario_names_reorder_of_some {scs : List Scenario} {i : Nat}
    (h : list_index "base" (scenario_names scs) = some i) :
    scenario_names (reorder_base scs) = (scenario_names scs).eraseIdx i ++ ["base"] := by
  obtain ⟨hlt, hget⟩ := list_index_eq_some h
  have hi : i < scs.length := by simpa [scenario_names] using hlt
  have hsc : scs[i]? = some scs[i] := List.getElem?_eq_getElem hi
  have hname : scenario_name scs[i].file = "base" := by
    have : (scenario_names scs)[i]? = some (scenario_name scs[i].file) := by
      simp [scenario_names, List.getElem?_map, hsc]
    rw [this] at hget
    exact Option.some.inj hget
  have hmatch : reorder_base scs = scs.eraseIdx i ++ scs[i]?.toList := by
    simp only [reorder_base, h]
  rw [hmatch, hsc, Option.toList_some]
  unfold scenario_names
  rw [List.map_append, map_eraseIdx]
  simp [hname]

lemma reorder_base_of_none {scs : List Scenario}
    (h : "base" ∉ scenario_names scs) : reorder_base scs = scs := by
  simp [reorder_base, list_index_eq_none.mpr h]

/-! ### Helper lemmas: last element of a sorted list is maximal -/

lemma sorted_getLast?_max {α : Type} {r : α → α → Prop} (hrefl : ∀ a, r a a) :
    ∀ {l : List α} {m : α}, List.Sorted r l → l.getLast? = some m →
      ∀ x ∈ l, r x m
  | [], m, _, hm, _, hx => by simp at hx
  | [a], m, _, hm, x, hx => by
    simp at hm hx
    subst hx
    subst hm
    exact hrefl _
  | a :: b :: t, m, hs, hm, x, hx => by
    have hm2 : (b :: t).getLast? = some m := by
      simpa [List.getLast?] using hm
    rcases List.mem_cons.mp hx with rfl | hx2
    · have hmem : m ∈ b :: t := by
        obtain ⟨hne, he⟩ := List.mem_getLast?_eq_getLast (by simp [hm2] : m ∈ (b :: t).getLast?)
        exact he ▸ List.getLast_mem hne
      exact List.rel_of_sorted_cons hs m hmem
    · exact sorted_getLast?_max hrefl hs.of_cons hm2 x hx2

lemma costs_out_fst (scs : List Scenario) :
    (costs_out scs).map (fun r => r.1) = scenario_names (reorder_base scs) := by
  simp [costs_out, scenario_names]

lemma esums_out_fst (scs : List Scenario) :
    (esums_out scs).map (fun r => r.1) = scenario_names (reorder_base scs) := by
  simp [esums_out, scenario_names]

/-! ### Helper lemmas: pattern matching on character lists -/

lemma isPrefixOf_iff_exists_append :
    ∀ {p s : List Char}, p.isPrefixOf s = true ↔ ∃ t, s = p ++ t
  | [], s => by simp [List.isPrefixOf]
  | a :: p, [] => by simp [List.isPrefixOf]
  | a :: p, b :: s => by
    simp only [List.isPrefixOf, Bool.and_eq_true, beq_iff_eq]
    constructor
    · rintro ⟨rfl, h⟩
      obtain ⟨t, rfl⟩ := isPrefixOf_iff_exists_append.mp h
      exact ⟨t, rfl⟩
    · rintro ⟨t, ht⟩
      rw [List.cons_append] at ht
      injection ht with h1 h2
      exact ⟨h1.symm, isPrefixOf_iff_exists_append.mpr ⟨t, h2⟩⟩

lemma isSuffixOf_iff_exists_append {p s : List Char} :
    p.isSuffixOf s = true ↔ ∃ t, s = t ++ p := by
  rw [List.isSuffixOf, isPrefixOf_iff_exists_append]
  constructor
  · rintro ⟨t, ht⟩
    refine ⟨t.reverse, ?_⟩
    have h2 := congrArg List.reverse ht
    simpa using h2
  · rintro ⟨t, rfl⟩
    exact ⟨t.reverse, by simp⟩

/-- Glob semantics of the fixed pattern: a name matches `scenario_*.xlsx`
exactly when it is `scenario_` followed by any character sequence followed by
`.xlsx`.  (The two fixed parts cannot overlap: in a string shorter than their
combined length, the character that should start `.xlsx` falls inside
`scenario_` and differs.) -/
lemma matches_scenario_glob_iff (x : String) :
    matches_scenario_glob x = true ↔
      ∃ mid : List Char, x.toList = "scenario_".toList ++ (mid ++ ".xlsx".toList) := by
  unfold matches_scenario_glob
  rw [Bool.and_eq_true, isPrefixOf_iff_exists_append, isSuffixOf_iff_exists_append]
  constructor
  · rintro ⟨⟨t, ht⟩, ⟨u, hu⟩⟩
    have hlen : 9 + t.length = u.length + 5 := by
      have h1 := congrArg List.length ht
      have h2 := congrArg List.length hu
      simp at h1 h2
      omega
    by_cases hu9 : 9 ≤ u.length
    · refine ⟨u.drop 9, ?_⟩
      have hpre : "scenario_".toList = u.take 9 := by
        have h3 : List.take 9 ("scenario_".toList ++ t)
            = List.take 9 (u ++ ".xlsx".toList) := by rw [← ht, ← hu]
        rw [List.take_append_of_le_length hu9] at h3
        simpa using h3
      rw [hu, hpre, ← List.append_assoc, List.take_append_drop]
    · exfalso
      have h4 : 4 ≤ u.length := by omega
      have h8 : u.length ≤ 8 := by omega
      have e1 : x.toList[u.length]? = some '.' := by
        rw [hu, List.getElem?_append_right (le_refl u.length)]
        simp
      have e2 : x.toList[u.length]? = ("scenario_".toList)[u.length]? := by
        rw [ht, List.getElem?_append_left (by simp; omega)]
      rw [e1] at e2
      set k := u.length with hk
      interval_cases k <;> exact absurd e2.symm (by decide)
  · rintro ⟨mid, hm⟩
    exact ⟨⟨mid ++ ".xlsx".toList, hm⟩,
      ⟨"scenario_".toList ++ mid, by rw [hm, List.append_assoc]⟩⟩

/-! ### Claim C9: globbing result files -/

/-- C9: `glob_result_files` returns exactly the directory entries matching
the pattern `scenario_*.xlsx` (prefix `scenario_`, arbitrary middle, suffix
`.xlsx`), in lexicographically sorted order. -/
theorem glob_result_files_sorted_matching (files : List String) :
    (∀ x, x ∈ glob_result_files files ↔
      x ∈ files ∧ matches_scenario_glob x = true)
    ∧ (glob_result_files files).Perm (files.filter matches_scenario_glob)
    ∧ List.Sorted (fun a b => strLe a b = true) (glob_result_files files)
    ∧ (∀ x, matches_scenario_glob x = true ↔
        ∃ mid : List Char,
          x.toList = "scenario_".toList ++ (mid ++ ".xlsx".toList)) := by
  refine ⟨?_, ?_, ?_, fun x => matches_scenario_glob_iff x⟩
  · intro x
    unfold glob_result_files
    rw [(List.perm_insertionSort _ _).mem_iff, List.mem_filter]
  · exact List.perm_insertionSort _ _
  · exact List.sorted_insertionSort _ _

/-- Witness for C9 at a three-entry directory and one matching filename. -/
theorem glob_result_files_sorted_matching_witness :
    "scenario_a.xlsx"
        ∈ glob_result_files ["scenario_b.xlsx", "other.txt", "scenario_a.xlsx"]
      ↔ "scenario_a.xlsx" ∈ ["scenario_b.xlsx", "other.txt", "scenario_a.xlsx"]
        ∧ matches_scenario_glob "scenario_a.xlsx" = true :=
  (glob_result_files_sorted_matching
    ["scenario_b.xlsx", "other.txt", "scenario_a.xlsx"]).1 "scenario_a.xlsx"

/-! ### Claim C8: most recently modified entry -/

/-- C8: on a non-empty directory listing, `get_most_recent_entry` returns an
entry of the listing whose modification time is at least every entry's; on an
empty listing it returns no value (the unhandled `IndexError` of
`entries[-1]`). -/
theorem get_most_recent_entry_latest (entries : List (String × ℚ)) :
    (entries = [] → get_most_recent_entry entries = none)
    ∧ (entries ≠ [] →
        ∃ e, get_most_recent_entry entries = some e ∧ e ∈ entries ∧
          ∀ e2 ∈ entries, e2.2 ≤ e.2) := by
  constructor
  · rintro rfl
    rfl
  · intro hne
    have hperm :=
      List.perm_insertionSort (fun a b : String × ℚ => a.2 ≤ b.2) entries
    have hsort :=
      List.sorted_insertionSort (fun a b : String × ℚ => a.2 ≤ b.2) entries
    have hlne : List.insertionSort (fun a b : String × ℚ => a.2 ≤ b.2) entries ≠ [] := by
      intro h0
      apply hne
      have := hperm.length_eq
      rw [h0] at this
      exact List.length_eq_zero.mp this.symm
    have hlast := List.getLast?_eq_getLast_of_ne_nil hlne
    refine ⟨_, hlast, ?_, ?_⟩
    · exact hperm.mem_iff.mp (List.getLast_mem hlne)
    · intro e2 he2
      exact @sorted_getLast?_max (String × ℚ) (fun a b => a.2 ≤ b.2)
        (fun a => le_refl a.2) _ _ hsort hlast e2 (hperm.mem_iff.mpr he2)

/-- Witness for C8 at an empty and a three-entry directory. -/
theorem get_most_recent_entry_latest_witness :
    get_most_recent_entry [] = none ∧
    ∃ e, get_most_recent_entry [("a", 5), ("b", 7), ("c", 6)] = some e ∧
      e ∈ [("a", 5), ("b", 7), ("c", 6)] ∧
      ∀ e2 ∈ [("a", (5 : ℚ)), ("b", 7), ("c", 6)], e2.2 ≤ e.2 :=
  ⟨(get_most_recent_entry_latest []).1 rfl,
   (get_most_recent_entry_latest [("a", 5), ("b", 7), ("c", 6)]).2 (by simp)⟩

/-! ### Claims C2 and C10: the base scenario is moved to the end -/

lemma pop_append_map {α : Type} {f : α → String} {l : List α} {i : Nat}
    (h : list_index "base" (l.map f) = some i) :
    (l.eraseIdx i ++ l[i]?.toList).map f = (l.map f).eraseIdx i ++ ["base"] := by
  obtain ⟨hlt, hget⟩ := list_index_eq_some h
  have hi : i < l.length := by simpa using hlt
  have hsc : l[i]? = some l[i] := List.getElem?_eq_getElem hi
  have hname : f l[i] = "base" := by
    have h2 : (l.map f)[i]? = some (f l[i]) := by
      simp [List.getElem?_map, hsc]
    rw [h2] at hget
    exact Option.some.inj hget
  rw [hsc, Option.toList_some, List.map_append, map_eraseIdx]
  simp [hname]

/-- C2: whenever some derived scenario name is exactly `base`, that scenario
is the last row of both output tables, whatever the input order was; when no
name is `base`, the lists are not reordered at all and the rows are the
scenario names in input order. -/
theorem base_scenario_last_row (scs : List Scenario) :
    ("base" ∈ scenario_names scs →
      ((costs_out scs).map (fun r => r.1)).getLast? = some "base"
      ∧ ((esums_out scs).map (fun r => r.1)).getLast? = some "base")
    ∧ ("base" ∉ scenario_names scs →
      reorder_base scs = scs
      ∧ (costs_out scs).map (fun r => r.1) = scenario_names scs
      ∧ (esums_out scs).map (fun r => r.1) = scenario_names scs) := by
  constructor
  · intro hmem
    obtain ⟨i, hi⟩ : ∃ i, list_index "base" (scenario_names scs) = some i := by
      cases h : list_index "base" (scenario_names scs) with
      | none => exact absurd (list_index_eq_none.mp h) (by simp [hmem])
      | some i => exact ⟨i, rfl⟩
    have hnames := scenario_names_reorder_of_some hi
    rw [costs_out_fst, esums_out_fst, hnames]
    exact ⟨List.getLast?_concat _, List.getLast?_concat _⟩
  · intro hmem
    have hr := reorder_base_of_none hmem
    rw [costs_out_fst, esums_out_fst, hr]
    exact ⟨rfl, rfl, rfl⟩

/-- Witness for C2: `base` arrives in the middle of three scenarios and ends
up last; a `base`-free run is untouched. -/
theorem base_scenario_last_row_witness :
    ((costs_out [⟨"scenario_x.xlsx", [], []⟩, ⟨"scenario_base.xlsx", [], []⟩,
        ⟨"scenario_y.xlsx", [], []⟩]).map (fun r => r.1)).getLast? = some "base"
    ∧ reorder_base [⟨"scenario_x.xlsx", [], []⟩] = [⟨"scenario_x.xlsx", [], []⟩] :=
  ⟨((base_scenario_last_row [⟨"scenario_x.xlsx", [], []⟩,
      ⟨"scenario_base.xlsx", [], []⟩, ⟨"scenario_y.xlsx", [], []⟩]).1
      (by decide)).1,
   ((base_scenario_last_row [⟨"scenario_x.xlsx", [], []⟩]).2 (by decide)).1⟩

/-- C10: the `result_files` list passed to `compare_scenarios` ends up
reordered in place when a `base` scenario is present (its entry removed at
the base index and appended at the end, a permutation of the original whose
last file has the name `base`), and is left unchanged otherwise. -/
theorem result_files_mutated_in_place (result_files : List String) :
    ("base" ∈ result_files.map scenario_name →
      (∃ i, list_index "base" (result_files.map scenario_name) = some i
        ∧ result_files_after result_files
            = result_files.eraseIdx i ++ result_files[i]?.toList)
      ∧ (result_files_after result_files).Perm result_files
      ∧ ((result_files_after result_files).map scenario_name).getLast?
          = some "base")
    ∧ ("base" ∉ result_files.map scenario_name →
      result_files_after result_files = result_files) := by
  constructor
  · intro hmem
    obtain ⟨i, hi⟩ :
        ∃ i, list_index "base" (result_files.map scenario_name) = some i := by
      cases h : list_index "base" (result_files.map scenario_name) with
      | none => exact absurd (list_index_eq_none.mp h) (by simp [hmem])
      | some i => exact ⟨i, rfl⟩
    have hmatch : result_files_after result_files
        = result_files.eraseIdx i ++ result_files[i]?.toList := by
      simp only [result_files_after, hi]
    have hilt : i < result_files.length := by
      have := (list_index_eq_some hi).1
      simpa using this
    refine ⟨⟨i, hi, hmatch⟩, ?_, ?_⟩
    · rw [hmatch]
      exact eraseIdx_append_getElem_perm hilt
    · rw [hmatch, pop_append_map hi]
      exact List.getLast?_concat _
  · intro hmem
    simp only [result_files_after, list_index_eq_none.mpr hmem]

/-- Witness for C10: a run with `base` first is rotated, a run without
`base` is untouched. -/
theorem result_files_mutated_in_place_witness :
    (result_files_after ["scenario_base.xlsx", "scenario_x.xlsx"]).Perm
      ["scenario_base.xlsx", "scenario_x.xlsx"]
    ∧ result_files_after ["scenario_x.xlsx"] = ["scenario_x.xlsx"] :=
  ⟨((result_files_mutated_in_place
      ["scenario_base.xlsx", "scenario_x.xlsx"]).1 (by decide)).2.1,
   (result_files_mutated_in_place ["scenario_x.xlsx"]).2 (by decide)⟩

/-! ### Claim C3: sign split of the cost columns -/

/-- C3: `spent` holds exactly the cost-type columns whose sum over all
scenarios is strictly positive, `earnt` exactly those with strictly negative
sum, and a column summing to exactly zero lands in neither. -/
theorem spent_earnt_sign_split (scs : List Scenario) (ct : String) :
    (ct ∈ spent scs ↔
      ct ∈ cost_types (reorder_base scs) ∧ 0 < col_sum scs ct)
    ∧ (ct ∈ earnt scs ↔
      ct ∈ cost_types (reorder_base scs) ∧ col_sum scs ct < 0)
    ∧ (col_sum scs ct = 0 → ct ∉ spent scs ∧ ct ∉ earnt scs) := by
  refine ⟨?_, ?_, fun h0 => ⟨?_, ?_⟩⟩
  · simp [spent, List.mem_filter]
  · simp [earnt, List.mem_filter]
  · simp [spent, List.mem_filter, h0]
  · simp [earnt, List.mem_filter, h0]

/-- Witness for C3: one scenario with a single all-zero cost column, which
appears in neither subset. -/
theorem spent_earnt_sign_split_witness :
    col_sum [⟨"scenario_x.xlsx", [("Zero", 0)], []⟩] "Zero" = 0
    ∧ "Zero" ∉ spent [⟨"scenario_x.xlsx", [("Zero", 0)], []⟩]
    ∧ "Zero" ∉ earnt [⟨"scenario_x.xlsx", [("Zero", 0)], []⟩] := by
  have hr : reorder_base [⟨"scenario_x.xlsx", [("Zero", 0)], []⟩]
      = [⟨"scenario_x.xlsx", [("Zero", 0)], []⟩] := by decide
  have h0 : col_sum [⟨"scenario_x.xlsx", [("Zero", 0)], []⟩] "Zero" = 0 := by
    rw [col_sum, hr]
    simp [cost_cell, lookupCost]
  exact ⟨h0,
    (spent_earnt_sign_split [⟨"scenario_x.xlsx", [("Zero", 0)], []⟩] "Zero").2.2 h0⟩

/-! ### Claim C4: shape of the output Costs table -/

/-- C4: the output Costs table has one row per input scenario (its row labels
a permutation of the derived names, each row as long as the column list), and
its column labels are the union of the cost types of all input sheets, in
sorted order without duplicates. -/
theorem costs_table_shape (scs : List Scenario) :
    (costs_out scs).length = scs.length
    ∧ ((costs_out scs).map (fun r => r.1)).Perm (scenario_names scs)
    ∧ (∀ r ∈ costs_out scs,
        r.2.length = (cost_types (reorder_base scs)).length)
    ∧ (∀ ct, ct ∈ cost_types (reorder_base scs) ↔
        ∃ sc ∈ scs, ct ∈ sheet_cost_types sc.cost)
    ∧ List.Sorted (fun a b => strLe a b = true) (cost_types (reorder_base scs))
    ∧ (cost_types (reorder_base scs)).Nodup := by
  refine ⟨?_, ?_, ?_, ?_, ?_, ?_⟩
  · rw [costs_out, List.length_map]
    exact (reorder_base_perm scs).length_eq
  · rw [costs_out_fst]
    exact List.Perm.map _ (reorder_base_perm scs)
  · intro r hr
    obtain ⟨sc, _, rfl⟩ := List.mem_map.mp hr
    simp
  · intro ct
    unfold cost_types
    rw [(List.perm_insertionSort _ _).mem_iff, List.mem_dedup, List.mem_flatten]
    constructor
    · rintro ⟨l2, hl2, hct⟩
      obtain ⟨sc, hsc, rfl⟩ := List.mem_map.mp hl2
      exact ⟨sc, (reorder_base_perm scs).mem_iff.mp hsc, hct⟩
    · rintro ⟨sc, hsc, hct⟩
      exact ⟨sheet_cost_types sc.cost,
        List.mem_map.mpr ⟨sc, (reorder_base_perm scs).mem_iff.mpr hsc, rfl⟩, hct⟩
  · exact List.sorted_insertionSort _ _
  · exact (List.perm_insertionSort _ _).nodup_iff.mpr (List.nodup_dedup _)

/-- Witness for C4: the row of a one-scenario run with an empty cost sheet is
as long as the (empty) column list. -/
theorem costs_table_shape_witness :
    ("x", ([] : List (Option ℚ))).2.length
      = (cost_types (reorder_base [⟨"scenario_x.xlsx", [], []⟩])).length :=
  (costs_table_shape [⟨"scenario_x.xlsx", [], []⟩]).2.2.1
    ("x", ([] : List (Option ℚ))) (by decide)

/-! ### Claim C6: only strictly positive Created totals survive -/

/-- C6: the commodity columns of the output EnergySums table are exactly the
commodities appearing in some sheet's `Created` rows whose total over all
scenarios and locations is strictly positive; a commodity with zero or
negative total is absent.  The candidate commodities are read from `Created`
rows only. -/
theorem esums_only_positive_created (scs : List Scenario) (c : String) :
    (c ∈ used_commodities scs ↔
      c ∈ commodities (reorder_base scs) ∧ 0 < com_total scs c)
    ∧ (com_total scs c ≤ 0 → c ∉ used_commodities scs)
    ∧ (c ∈ commodities (reorder_base scs) ↔
        ∃ sc ∈ scs, c ∈ sheet_commodities sc.esum)
    ∧ (∀ sc : Scenario, c ∈ sheet_commodities sc.esum ↔
        ∃ row ∈ sc.esum, row.1 = ("Created", c)) := by
  refine ⟨?_, ?_, ?_, ?_⟩
  · simp [used_commodities, List.mem_filter]
  · intro hle hmem
    rw [used_commodities, List.mem_filter] at hmem
    have hpos : 0 < com_total scs c := by simpa using hmem.2
    exact absurd hpos (not_lt.mpr hle)
  · unfold commodities
    rw [(List.perm_insertionSort _ _).mem_iff, List.mem_dedup, List.mem_flatten]
    constructor
    · rintro ⟨l2, hl2, hc⟩
      obtain ⟨sc, hsc, rfl⟩ := List.mem_map.mp hl2
      exact ⟨sc, (reorder_base_perm scs).mem_iff.mp hsc, hc⟩
    · rintro ⟨sc, hsc, hc⟩
      exact ⟨sheet_commodities sc.esum,
        List.mem_map.mpr ⟨sc, (reorder_base_perm scs).mem_iff.mpr hsc, rfl⟩, hc⟩
  · intro sc
    unfold sheet_commodities
    rw [List.mem_map]
    constructor
    · rintro ⟨row, hrow, rfl⟩
      rw [List.mem_filter] at hrow
      refine ⟨row, hrow.1, ?_⟩
      have hprop : row.1.1 = "Created" := by simpa using hrow.2
      exact Prod.ext hprop rfl
    · rintro ⟨row, hrow, hkey⟩
      refine ⟨row, List.mem_filter.mpr ⟨hrow, by simp [hkey]⟩, by simp [hkey]⟩

/-- Witness for C6: `Heat` is created with total `0` and is dropped. -/
theorem esums_only_positive_created_witness :
    com_total [⟨"scenario_x.xlsx", [],
        [(("Created", "Elec"), [2, 3]), (("Created", "Heat"), [0]),
         (("Stored", "Gas"), [5])]⟩] "Heat" = 0
    ∧ "Heat" ∉ used_commodities [⟨"scenario_x.xlsx", [],
        [(("Created", "Elec"), [2, 3]), (("Created", "Heat"), [0]),
         (("Stored", "Gas"), [5])]⟩] := by
  have hr : reorder_base [⟨"scenario_x.xlsx", [],
      [(("Created", "Elec"), [2, 3]), (("Created", "Heat"), [0]),
       (("Stored", "Gas"), [5])]⟩]
      = [⟨"scenario_x.xlsx", [],
      [(("Created", "Elec"), [2, 3]), (("Created", "Heat"), [0]),
       (("Stored", "Gas"), [5])]⟩] := by decide
  have h0 : com_total [⟨"scenario_x.xlsx", [],
      [(("Created", "Elec"), [2, 3]), (("Created", "Heat"), [0]),
       (("Stored", "Gas"), [5])]⟩] "Heat" = 0 := by
    rw [com_total, hr]
    simp [created_sum, row_sum]
  exact ⟨h0, (esums_only_positive_created _ "Heat").2.1 h0.le⟩

/-! ### Claim C1: every output cell is a scaled source cell -/

lemma getD_map {α β : Type} (f : α → β) (l : List α) (i : Nat)
    (hi : i < l.length) (d : β) (d2 : α) :
    (l.map f).getD i d = f (l.getD i d2) := by
  rw [List.getD_eq_getElem?_getD, List.getElem?_map, List.getElem?_eq_getElem hi,
    List.getD_eq_getElem?_getD, List.getElem?_eq_getElem hi]
  rfl

/-- C1: cell (i, j) of the output Costs table is the cost cell of scenario
`i` at cost type `j` read from its sheet, divided by `1e9` (`none` = `NaN`
when the sheet lacks the row); cell (i, k) of the output EnergySums table is
the sum of the location cells of scenario `i`'s rows keyed
(`Created`, commodity `k`), divided by `1e3`. -/
theorem output_cells_scaled_source (scs : List Scenario) (i j k : Nat)
    (hi : i < (reorder_base scs).length)
    (hj : j < (cost_types (reorder_base scs)).length)
    (hk : k < (used_commodities scs).length) :
    ((costs_out scs).getD i ("", [])).2.getD j none
      = (lookupCost ((reorder_base scs).getD i default).cost
          ((cost_types (reorder_base scs)).getD j "")).map
            (fun v => v / 1000000000)
    ∧ ((esums_out scs).getD i ("", [])).2.getD k 0
      = row_sum ((reorder_base scs).getD i default).esum
          ("Created", (used_commodities scs).getD k "") / 1000 := by
  constructor
  · have h1 : (costs_out scs).getD i ("", [])
        = (scenario_name ((reorder_base scs).getD i default).file,
           (cost_types (reorder_base scs)).map
             (fun ct => cost_cell ((reorder_base scs).getD i default) ct)) := by
      unfold costs_out
      exact getD_map _ _ i hi _ default
    rw [h1]
    have h2 : ((cost_types (reorder_base scs)).map
        (fun ct => cost_cell ((reorder_base scs).getD i default) ct)).getD j none
        = cost_cell ((reorder_base scs).getD i default)
            ((cost_types (reorder_base scs)).getD j "") :=
      getD_map _ _ j hj none ""
    exact h2
  · have h1 : (esums_out scs).getD i ("", [])
        = (scenario_name ((reorder_base scs).getD i default).file,
           (used_commodities scs).map
             (fun c => created_sum ((reorder_base scs).getD i default) c / 1000)) := by
      unfold esums_out
      exact getD_map _ _ i hi _ default
    rw [h1]
    have h2 : ((used_commodities scs).map
        (fun c => created_sum ((reorder_base scs).getD i default) c / 1000)).getD k 0
        = created_sum ((reorder_base scs).getD i default)
            ((used_commodities scs).getD k "") / 1000 :=
      getD_map _ _ k hk 0 ""
    exact h2

/-- Witness for C1 at a one-scenario run holding an `Invest` cost and a
created `Elec` commodity. -/
theorem output_cells_scaled_source_witness :
    0 < (reorder_base [⟨"scenario_base.xlsx", [("Invest", 2000000000)],
        [(("Created", "Elec"), [500]), (("Stored", "Elec"), [1])]⟩]).length
    ∧ 0 < (cost_types (reorder_base [⟨"scenario_base.xlsx",
        [("Invest", 2000000000)],
        [(("Created", "Elec"), [500]), (("Stored", "Elec"), [1])]⟩])).length
    ∧ 0 < (used_commodities [⟨"scenario_base.xlsx", [("Invest", 2000000000)],
        [(("Created", "Elec"), [500]), (("Stored", "Elec"), [1])]⟩]).length
    ∧ ((costs_out [⟨"scenario_base.xlsx", [("Invest", 2000000000)],
        [(("Created", "Elec"), [500]), (("Stored", "Elec"), [1])]⟩]).getD 0
          ("", [])).2.getD 0 none
      = (lookupCost ((reorder_base [⟨"scenario_base.xlsx",
          [("Invest", 2000000000)],
          [(("Created", "Elec"), [500]), (("Stored", "Elec"), [1])]⟩]).getD 0
            default).cost
          ((cost_types (reorder_base [⟨"scenario_base.xlsx",
            [("Invest", 2000000000)],
            [(("Created", "Elec"), [500]), (("Stored", "Elec"), [1])]⟩])).getD 0
              "")).map (fun v => v / 1000000000) := by
  have hused : used_commodities [⟨"scenario_base.xlsx", [("Invest", 2000000000)],
      [(("Created", "Elec"), [500]), (("Stored", "Elec"), [1])]⟩] = ["Elec"] := by
    have hr : reorder_base [⟨"scenario_base.xlsx", [("Invest", 2000000000)],
        [(("Created", "Elec"), [500]), (("Stored", "Elec"), [1])]⟩]
        = [⟨"scenario_base.xlsx", [("Invest", 2000000000)],
        [(("Created", "Elec"), [500]), (("Stored", "Elec"), [1])]⟩] := by decide
    have hct : com_total [⟨"scenario_base.xlsx", [("Invest", 2000000000)],
        [(("Created", "Elec"), [500]), (("Stored", "Elec"), [1])]⟩] "Elec"
        = 500 := by
      rw [com_total, hr]
      simp [created_sum, row_sum]
    unfold used_commodities
    rw [hr]
    have hcoms : commodities [⟨"scenario_base.xlsx", [("Invest", 2000000000)],
        [(("Created", "Elec"), [500]), (("Stored", "Elec"), [1])]⟩]
        = ["Elec"] := by decide
    rw [hcoms]
    simp [List.filter, hct]
  have hk : 0 < (used_commodities [⟨"scenario_base.xlsx",
      [("Invest", 2000000000)],
      [(("Created", "Elec"), [500]), (("Stored", "Elec"), [1])]⟩]).length := by
    rw [hused]
    decide
  exact ⟨by decide, by decide, hk,
    (output_cells_scaled_source _ 0 0 0 (by decide) (by decide) hk).1⟩

/-! ### Claim C7: what the index repair forward-fills -/

lemma ffo_none {α : Type} (x : Option α) : ffo none x = x := by
  cases x <;> rfl

lemma ffill_from_map_fst :
    ∀ (rs : List RawRow) (prev : RawRow),
      (ffill_from prev rs).map (fun r => r.1)
        = carry_from prev.1 (rs.map (fun r => r.1))
  | [], _ => rfl
  | r :: rs, prev => by
    simp only [ffill_from, List.map_cons, carry_from]
    exact congrArg₂ List.cons rfl (ffill_from_map_fst rs (ffill_row prev r))

lemma ffill_from_map_snd :
    ∀ (rs : List RawRow) (prev : RawRow),
      (ffill_from prev rs).map (fun r => r.2.1)
        = carry_from prev.2.1 (rs.map (fun r => r.2.1))
  | [], _ => rfl
  | r :: rs, prev => by
    simp only [ffill_from, List.map_cons, carry_from]
    exact congrArg₂ List.cons rfl (ffill_from_map_snd rs (ffill_row prev r))

lemma getD_zipWith {α : Type} (f : Option α → Option α → Option α)
    (a b : List (Option α)) (j : Nat) (ha : j < a.length) (hb : j < b.length) :
    (List.zipWith f a b).getD j none = f (a.getD j none) (b.getD j none) := by
  have hz : j < (List.zipWith f a b).length := by
    rw [List.length_zipWith]
    exact lt_min ha hb
  rw [List.getD_eq_getElem?_getD, List.getElem?_eq_getElem hz,
    List.getD_eq_getElem?_getD, List.getElem?_eq_getElem ha,
    List.getD_eq_getElem?_getD, List.getElem?_eq_getElem hb]
  simp [List.getElem_zipWith]

lemma ffill_from_map_val (j w : Nat) (hj : j < w) :
    ∀ (rs : List RawRow) (prev : RawRow), prev.2.2.length = w →
      (∀ r ∈ rs, r.2.2.length = w) →
      (ffill_from prev rs).map (fun r => r.2.2.getD j none)
        = carry_from (prev.2.2.getD j none)
            (rs.map (fun r => r.2.2.getD j none))
  | [], _, _, _ => rfl
  | r :: rs, prev, hp, hall => by
    have hr : r.2.2.length = w := hall r (List.mem_cons_self r rs)
    have hrow : (ffill_row prev r).2.2.getD j none
        = ffo (prev.2.2.getD j none) (r.2.2.getD j none) :=
      getD_zipWith ffo prev.2.2 r.2.2 j (by omega) (by omega)
    have hlen : (ffill_row prev r).2.2.length = w := by
      simp only [ffill_row, List.length_zipWith]
      omega
    simp only [ffill_from, List.map_cons, carry_from]
    rw [← hrow]
    exact congrArg₂ List.cons rfl
      (ffill_from_map_val j w hj rs (ffill_row prev r) hlen
        (fun x hx => hall x (List.mem_cons_of_mem r hx)))

/-- Counterexample for C7: the repair step is *not* a forward fill restricted
to the two key columns.  On a sheet whose second row is entirely blank, the
code's whole-frame `fillna(ffill)` also fills the blank numeric cell, while
the claim's columns-1-2-only repair leaves it blank. -/
theorem ffill_not_restricted_to_key_columns :
    ffill [(some "Created", some "Elec", [some (5 : ℚ)]), (none, none, [none])]
      ≠ ffill_keys
          [(some "Created", some "Elec", [some (5 : ℚ)]), (none, none, [none])] := by
  decide

/-- C7 amended: `fillna(method='ffill')` forward-fills every column of the
reset sheet, the two key columns and the numeric location columns alike: on a
sheet whose rows all carry `w` numeric cells, every column equals the
carry-forward of the corresponding raw column (each blank cell takes the last
non-blank value above it; a non-blank cell, and any cell with only blanks
above it, is unchanged). -/
theorem ffill_forward_fills_every_column (rows : List RawRow) (w : Nat)
    (hw : ∀ r ∈ rows, r.2.2.length = w) :
    (ffill rows).map (fun r => r.1) = carry (rows.map (fun r => r.1))
    ∧ (ffill rows).map (fun r => r.2.1) = carry (rows.map (fun r => r.2.1))
    ∧ ∀ j < w, (ffill rows).map (fun r => r.2.2.getD j none)
        = carry (rows.map (fun r => r.2.2.getD j none)) := by
  cases rows with
  | nil => exact ⟨rfl, rfl, fun j hj => rfl⟩
  | cons r rs =>
    refine ⟨?_, ?_, ?_⟩
    · simp only [ffill, List.map_cons, carry, carry_from, ffo_none]
      exact congrArg₂ List.cons rfl (ffill_from_map_fst rs r)
    · simp only [ffill, List.map_cons, carry, carry_from, ffo_none]
      exact congrArg₂ List.cons rfl (ffill_from_map_snd rs r)
    · intro j hj
      simp only [ffill, List.map_cons, carry, carry_from, ffo_none]
      exact congrArg₂ List.cons rfl
        (ffill_from_map_val j w hj rs r (hw r (List.mem_cons_self r rs))
          (fun x hx => hw x (List.mem_cons_of_mem r hx)))

/-- Witness for C7 at the two-row sheet of the counterexample: the numeric
column of the repaired sheet carries the `5` into the blank cell. -/
theorem ffill_forward_fills_every_column_witness :
    (∀ r ∈ ([(some "Created", some "Elec", [some (5 : ℚ)]),
        (none, none, [none])] : List RawRow), r.2.2.length = 1)
    ∧ (ffill [(some "Created", some "Elec", [some (5 : ℚ)]),
          (none, none, [none])]).map (fun r => r.2.2.getD 0 none)
        = carry (([(some "Created", some "Elec", [some (5 : ℚ)]),
            (none, none, [none])] : List RawRow).map
              (fun r => r.2.2.getD 0 none)) :=
  ⟨by decide,
   (ffill_forward_fills_every_column
      [(some "Created", some "Elec", [some (5 : ℚ)]), (none, none, [none])] 1
      (by decide)).2.2 0 (by decide)⟩

/-! ### Claim C5: scenario-name derivation

`str.replace(old, new)` removes every occurrence of `old`, not only an
extension or a leading marker; the lemmas below show the two behaviours agree
exactly when the pattern occurs nowhere else. -/

lemma replaceFuel_nil (p r : List Char) (fuel : Nat) :
    replaceFuel p r fuel [] = [] := by
  cases fuel <;> rfl

lemma occursAt_eq_false_of_le {p : List Char} (hp : p ≠ []) {s : List Char}
    {i : Nat} (h : s.length ≤ i) : occursAt p s i = false := by
  unfold occursAt
  rw [List.drop_eq_nil_of_le h]
  cases p with
  | nil => exact absurd rfl hp
  | cons a p2 => rfl

lemma occursAt_shift (p q s : List Char) (i : Nat) :
    occursAt p (q ++ s) (q.length + i) = occursAt p s i := by
  unfold occursAt
  simp [List.drop_append]

lemma replaceFuel_no_occ {p r : List Char} :
    ∀ (fuel : Nat) (s : List Char), s.length ≤ fuel →
      (∀ i, occursAt p s i = false) → replaceFuel p r fuel s = s
  | fuel, [], _, _ => replaceFuel_nil p r fuel
  | 0, c :: s, h, _ => by simp at h
  | fuel + 1, c :: s, h, hocc => by
    have h0 : p.isPrefixOf (c :: s) = false := hocc 0
    have hlen : s.length ≤ fuel := by
      simp only [List.length_cons] at h
      omega
    simp only [replaceFuel, h0, Bool.and_false, Bool.false_eq_true, if_false]
    exact congrArg (List.cons c)
      (replaceFuel_no_occ fuel s hlen (fun i => hocc (i + 1)))

lemma replaceFuel_only_at_end {p : List Char} (hp : p ≠ []) :
    ∀ (fuel : Nat) (t : List Char), (t ++ p).length ≤ fuel →
      (∀ i, occursAt p (t ++ p) i = true → i = t.length) →
      replaceFuel p [] fuel (t ++ p) = t
  | fuel, [], hf, _ => by
    cases p with
    | nil => exact absurd rfl hp
    | cons a p2 =>
      cases fuel with
      | zero => simp at hf
      | succ f =>
        have hpref : (a :: p2).isPrefixOf (a :: p2) = true :=
          isPrefixOf_iff_exists_append.mpr ⟨[], by simp⟩
        show replaceFuel (a :: p2) [] (f + 1) (a :: p2) = []
        simp only [replaceFuel, hpref, List.isEmpty, Bool.not_false,
          Bool.and_true, if_true, List.nil_append]
        rw [List.drop_length]
        exact replaceFuel_nil _ _ f
  | fuel, c :: t2, hf, hocc => by
    have h0 : p.isPrefixOf ((c :: t2) ++ p) = false := by
      cases hh : p.isPrefixOf ((c :: t2) ++ p) with
      | false => rfl
      | true =>
        have h2 := hocc 0 hh
        simp at h2
    cases fuel with
    | zero => simp at hf
    | succ f =>
      show replaceFuel p [] (f + 1) (c :: (t2 ++ p)) = c :: t2
      simp only [replaceFuel, show p.isPrefixOf (c :: (t2 ++ p)) = false from h0,
        Bool.and_false, Bool.false_eq_true, if_false]
      refine congrArg (List.cons c) (replaceFuel_only_at_end hp f t2 ?_ ?_)
      · simp only [List.length_append, List.length_cons] at hf ⊢
        omega
      · intro i hi
        have h2 : i + 1 = (c :: t2).length := hocc (i + 1) hi
        simp only [List.length_cons] at h2
        omega

lemma replaceFuel_only_at_start {p : List Char} (hp : p ≠ []) (fuel : Nat)
    (u : List Char) (hf : (p ++ u).length ≤ fuel)
    (hocc : ∀ i, occursAt p (p ++ u) i = true → i = 0) :
    replaceFuel p [] fuel (p ++ u) = u := by
  cases p with
  | nil => exact absurd rfl hp
  | cons a p2 =>
    cases fuel with
    | zero => simp at hf
    | succ f =>
      have hpref : (a :: p2).isPrefixOf ((a :: p2) ++ u) = true :=
        isPrefixOf_iff_exists_append.mpr ⟨u, rfl⟩
      show replaceFuel (a :: p2) [] (f + 1) (a :: (p2 ++ u)) = u
      simp only [replaceFuel, show (a :: p2).isPrefixOf (a :: (p2 ++ u)) = true
          from hpref, List.isEmpty, Bool.not_false, Bool.and_true, if_true,
        List.nil_append]
      rw [show (a :: (p2 ++ u)).drop (a :: p2).length = u from List.drop_left _ _]
      refine replaceFuel_no_occ f u ?_ ?_
      · simp only [List.length_append, List.length_cons] at hf
        omega
      · intro i
        cases hh : occursAt (a :: p2) u i with
        | false => rfl
        | true =>
          exfalso
          have h2 : occursAt (a :: p2) ((a :: p2) ++ u) ((a :: p2).length + i)
              = true := by
            rw [occursAt_shift]
            exact hh
          have h3 := hocc _ h2
          simp at h3

lemma pyReplace_eq_dropSuffixIf {s pat : String} (hp : pat.toList ≠ [])
    (h : ∀ i < s.toList.length, occursAt pat.toList s.toList i = true →
      i + pat.toList.length = s.toList.length) :
    pyReplace s pat "" = dropSuffixIf s pat := by
  by_cases hsuf : pat.toList.isSuffixOf s.toList = true
  · obtain ⟨t, ht⟩ := isSuffixOf_iff_exists_append.mp hsuf
    have hslen : s.toList.length = t.length + pat.toList.length := by
      rw [ht]
      simp
    have hocc : ∀ i, occursAt pat.toList s.toList i = true → i = t.length := by
      intro i hi
      by_cases hilt : i < s.toList.length
      · have h2 := h i hilt hi
        omega
      · rw [occursAt_eq_false_of_le hp (le_of_not_lt hilt)] at hi
        exact absurd hi (by simp)
    unfold pyReplace dropSuffixIf
    rw [if_pos hsuf]
    apply String.ext
    show replaceFuel pat.toList [] s.toList.length s.toList
        = s.toList.take (s.toList.length - pat.toList.length)
    rw [ht, show (t ++ pat.toList).length - pat.toList.length = t.length by simp,
      List.take_left]
    refine replaceFuel_only_at_end hp _ t (le_refl _) ?_
    intro i hi
    exact hocc i (by rw [ht]; exact hi)
  · have hocc : ∀ i, occursAt pat.toList s.toList i = false := by
      intro i
      cases hoc : occursAt pat.toList s.toList i with
      | false => rfl
      | true =>
        exfalso
        apply hsuf
        have hilt : i < s.toList.length := by
          by_contra hge
          rw [occursAt_eq_false_of_le hp (le_of_not_lt hge)] at hoc
          exact absurd hoc (by simp)
        have hi5 := h i hilt hoc
        obtain ⟨t2, ht2⟩ := isPrefixOf_iff_exists_append.mp hoc
        have ht2nil : t2 = [] := by
          have h4 := congrArg List.length ht2
          simp only [List.length_drop, List.length_append] at h4
          exact List.length_eq_zero.mp (by omega)
        rw [isSuffixOf_iff_exists_append]
        refine ⟨s.toList.take i, ?_⟩
        conv_lhs => rw [← List.take_append_drop i s.toList]
        rw [ht2, ht2nil, List.append_nil]
    unfold pyReplace dropSuffixIf
    rw [if_neg hsuf]
    apply String.ext
    show replaceFuel pat.toList [] s.toList.length s.toList = s.toList
    exact replaceFuel_no_occ _ _ (le_refl _) hocc

lemma pyReplace_eq_dropStartIf {s pat : String} (hp : pat.toList ≠ [])
    (h : ∀ i < s.toList.length, occursAt pat.toList s.toList i = true → i = 0) :
    pyReplace s pat "" = dropStartIf s pat := by
  by_cases hpre : pat.toList.isPrefixOf s.toList = true
  · obtain ⟨u, hu⟩ := isPrefixOf_iff_exists_append.mp hpre
    unfold pyReplace dropStartIf
    rw [if_pos hpre]
    apply String.ext
    show replaceFuel pat.toList [] s.toList.length s.toList
        = s.toList.drop pat.toList.length
    rw [hu, List.drop_left]
    refine replaceFuel_only_at_start hp _ u (le_refl _) ?_
    intro i hi
    by_cases hilt : i < (pat.toList ++ u).length
    · exact h i (by rw [hu]; exact hilt) (by rw [hu]; exact hi)
    · rw [occursAt_eq_false_of_le hp (le_of_not_lt hilt)] at hi
      exact absurd hi (by simp)
  · have hocc : ∀ i, occursAt pat.toList s.toList i = false := by
      intro i
      cases hoc : occursAt pat.toList s.toList i with
      | false => rfl
      | true =>
        exfalso
        have hilt : i < s.toList.length := by
          by_contra hge
          rw [occursAt_eq_false_of_le hp (le_of_not_lt hge)] at hoc
          exact absurd hoc (by simp)
        have hzero := h i hilt hoc
        subst hzero
        apply hpre
        unfold occursAt at hoc
        rwa [List.drop_zero] at hoc
    unfold pyReplace dropStartIf
    rw [if_neg hpre]
    apply String.ext
    show replaceFuel pat.toList [] s.toList.length s.toList = s.toList
    exact replaceFuel_no_occ _ _ (le_refl _) hocc

/-- Counterexample for C5: the code removes *every* occurrence of
`scenario ` (and of `.xlsx`), not only a leading marker and trailing
extension.  On `scenario_a_scenario_b.xlsx` the code derives `a b` while the
claim's drop-extension-and-marker reading derives `a scenario b`. -/
theorem scenario_name_not_drop_only :
    scenario_name "scenario_a_scenario_b.xlsx"
      ≠ spec_scenario_name "scenario_a_scenario_b.xlsx" := by decide

/-- C5 amended: the derived name removes every occurrence of `.xlsx` and of
`scenario ` after replacing underscores with spaces; whenever `.xlsx` occurs
only as the trailing extension and `scenario ` occurs only at the very start,
this coincides with the claim's dropping of the extension and then of the
leading `scenario ` marker, and the claim's two examples hold. -/
theorem scenario_name_drop_semantics (rf : String)
    (hA : ∀ i < (pyReplace (basename rf) "_" " ").toList.length,
      occursAt ".xlsx".toList (pyReplace (basename rf) "_" " ").toList i
          = true →
        i + ".xlsx".toList.length
          = (pyReplace (basename rf) "_" " ").toList.length)
    (hB : ∀ i <
        (pyReplace (pyReplace (basename rf) "_" " ") ".xlsx" "").toList.length,
      occursAt "scenario ".toList
          (pyReplace (pyReplace (basename rf) "_" " ") ".xlsx" "").toList i
          = true → i = 0) :
    scenario_name rf = spec_scenario_name rf
    ∧ scenario_name "scenario_Base_Case.xlsx" = "Base Case"
    ∧ scenario_name "scenario_base.xlsx" = "base" := by
  refine ⟨?_, by decide, by decide⟩
  have hs2 := pyReplace_eq_dropSuffixIf (by decide) hA
  have hs3 := pyReplace_eq_dropStartIf (by decide) hB
  show pyReplace (pyReplace (pyReplace (basename rf) "_" " ") ".xlsx" "")
      "scenario " "" = spec_scenario_name rf
  rw [hs3, hs2]
  rfl

/-- Witness for C5 at `out/scenario_my_case.xlsx`, where the extension and
the marker occur once each, in place. -/
theorem scenario_name_drop_semantics_witness :
    (∀ i < (pyReplace (basename "out/scenario_my_case.xlsx") "_" " ").toList.length,
      occursAt ".xlsx".toList
          (pyReplace (basename "out/scenario_my_case.xlsx") "_" " ").toList i
          = true →
        i + ".xlsx".toList.length
          = (pyReplace (basename "out/scenario_my_case.xlsx") "_" " ").toList.length)
    ∧ (∀ i < (pyReplace (pyReplace (basename "out/scenario_my_case.xlsx") "_" " ")
          ".xlsx" "").toList.length,
        occursAt "scenario ".toList
            (pyReplace (pyReplace (basename "out/scenario_my_case.xlsx") "_" " ")
              ".xlsx" "").toList i = true → i = 0)
    ∧ scenario_name "out/scenario_my_case.xlsx"
        = spec_scenario_name "out/scenario_my_case.xlsx" :=
  ⟨by decide, by decide,
   (scenario_name_drop_semantics "out/scenario_my_case.xlsx" (by decide)
      (by decide)).1⟩

end Comp
